import Mathlib

namespace StockGame

/-!
Shallow embedding of the kurumisan-stock-game matching and accounting core.

Sources embedded here:
* `src/src/game/order-book.ts` — `PriorityQueue` (binary heap over an array),
  `OrderBook` (bid/ask heaps plus an id → order index), `matchOrders`;
* `src/src/game/market-worker-thread.ts` — `SimpleOrderBook` (sorted arrays),
  `SimplePlayerSession`, `getPlayerSession(ForOrder)`, `handleSubmitOrder`,
  `handleCancelOrder`;
* `src/src/game/market-engine.ts` — `MarketEngine.updatePrice` (GBM step with
  order-flow pressure and the 0.01 price floor);
* `src/src/game/player-session.ts` — `PlayerSession` balance/inventory updates.

JavaScript numbers are modelled as rationals (`ℚ`); the transcendental parts of
the price engine (`Math.exp`, `Math.sqrt`, `Math.random`) are abstracted as
function/value parameters. JavaScript `Map`s are association lists with unique
keys; in-place mutation of an order shared between a heap and the id index is
modelled by updating both structures, which coincides with the source whenever
ids are unique in the book. Thrown exceptions are modelled with `Except`.
-/

/-- `OrderSide` from `src/src/game/types.ts`: `'buy' | 'sell'`. -/
inductive OrderSide where
  | buy
  | sell
deriving DecidableEq, Repr

/-- `OrderType` from `src/src/game/types.ts`: `'limit' | 'market'`. -/
inductive OrderType where
  | limit
  | market
deriving DecidableEq, Repr

/-- `Order` from `src/src/game/types.ts`. `status` is kept as the raw string of
the TS union `'pending' | 'filled' | 'cancelled' | 'partial'` (the last value
is a Lean keyword, so the union is not made an inductive type). `price` is
optional exactly as in TS (`price?: number`). -/
structure Order where
  id : String
  playerId : String
  itemId : String
  type : OrderType
  side : OrderSide
  quantity : ℚ
  price : Option ℚ
  timestamp : ℚ
  status : String
deriving DecidableEq, Repr

/-- `Trade` from `src/src/game/types.ts`. -/
structure Trade where
  id : String
  buyOrderId : String
  sellOrderId : String
  itemId : String
  quantity : ℚ
  price : ℚ
  timestamp : ℚ
deriving DecidableEq, Repr

/-!
### JavaScript `Map` as an association list

`Map.get` is `mapLookup`, `Map.set` is `mapSet` (updates an existing key in
place, else appends, as JS preserves insertion order), `Map.delete` is
`mapDelete`.
-/

/-- `Map.get k` — first binding of `k` (bindings are unique in a JS `Map`). -/
def mapLookup (k : String) : List (String × β) → Option β
  | [] => none
  | (k', v) :: rest => if k' = k then some v else mapLookup k rest

/-- `Map.set k v` — replace the binding of `k` in place, else append. -/
def mapSet (k : String) (v : β) : List (String × β) → List (String × β)
  | [] => [(k, v)]
  | (k', v') :: rest => if k' = k then (k, v) :: rest else (k', v') :: mapSet k v rest

/-- `Map.delete k` — drop the binding of `k`. -/
def mapDelete (k : String) : List (String × β) → List (String × β)
  | [] => []
  | (k', v') :: rest => if k' = k then rest else (k', v') :: mapDelete k rest

/-!
### `PriorityQueue` from `src/src/game/order-book.ts`

The heap array is a `List`; the comparator returns a number whose sign decides
the order, exactly as in JS. `listSwap` models the destructuring swap
`[h[i], h[j]] = [h[j], h[i]]`.
-/

/-- Swap the elements at positions `i` and `j` (identity when out of range). -/
def listSwap (l : List α) (i j : Nat) : List α :=
  match l[i]?, l[j]? with
  | some a, some b => (l.set i b).set j a
  | _, _ => l

/-- The `bubbleUp` loop body with an explicit fuel counter (the parent index
`(i-1)/2` is strictly smaller than `i`, so `fuel = i` always suffices and the
fuel-exhausted branch is unreachable; structural recursion keeps the function
kernel-computable). -/
def bubbleUpGo (cmp : α → α → ℚ) : Nat → List α → Nat → List α
  | _, l, 0 => l
  | 0, l, _ + 1 => l
  | fuel + 1, l, i + 1 =>
    match l[i + 1]?, l[(i + 1 - 1) / 2]? with
    | some x, some y =>
      if 0 ≤ cmp x y then l
      else bubbleUpGo cmp fuel (listSwap l (i + 1) ((i + 1 - 1) / 2)) ((i + 1 - 1) / 2)
    | _, _ => l

/-- `bubbleUp` from `PriorityQueue`: sift the element at `i` towards the root
while the comparator orders it before its parent. -/
def bubbleUp (cmp : α → α → ℚ) (l : List α) (i : Nat) : List α :=
  bubbleUpGo cmp i l i

/-- Comparator test `cmp h[j] h[s] < 0` on optional array slots. -/
def cmpLtAt (cmp : α → α → ℚ) (l : List α) (j s : Nat) : Bool :=
  match l[j]?, l[s]? with
  | some x, some y => decide (cmp x y < 0)
  | _, _ => false

/-- First half of the `bubbleDown` loop body: the left-child candidate. -/
def bdChild (cmp : α → α → ℚ) (l : List α) (i : Nat) : Nat :=
  if 2 * i + 1 < l.length ∧ cmpLtAt cmp l (2 * i + 1) i then 2 * i + 1 else i

/-- The child index the `bubbleDown` loop body swaps with (or `i` to stop). -/
def bdSwapIndex (cmp : α → α → ℚ) (l : List α) (i : Nat) : Nat :=
  if 2 * i + 2 < l.length ∧ cmpLtAt cmp l (2 * i + 2) (bdChild cmp l i) then 2 * i + 2
  else bdChild cmp l i

/-- The `bubbleDown` loop body with an explicit fuel counter (the swap index
strictly increases and stays below `l.length`, so `fuel = l.length` always
suffices and the fuel-exhausted branch is unreachable). -/
def bubbleDownGo (cmp : α → α → ℚ) : Nat → List α → Nat → List α
  | 0, l, _ => l
  | fuel + 1, l, i =>
    if bdSwapIndex cmp l i = i then l
    else bubbleDownGo cmp fuel (listSwap l i (bdSwapIndex cmp l i)) (bdSwapIndex cmp l i)

/-- `bubbleDown` from `PriorityQueue`: sift the element at `i` towards the
leaves while a child is ordered before it. -/
def bubbleDown (cmp : α → α → ℚ) (l : List α) (i : Nat) : List α :=
  bubbleDownGo cmp l.length l i

/-- `PriorityQueue.push`: append, then sift up from the last slot. -/
def heapPush (cmp : α → α → ℚ) (l : List α) (x : α) : List α :=
  bubbleUp cmp (l ++ [x]) l.length

/-- `PriorityQueue.peek`: the root of the heap array. -/
def heapPeek (l : List α) : Option α := l.head?

/-- `PriorityQueue.pop`: remove the root, move the last element to the root and
sift it down. -/
def heapPop (cmp : α → α → ℚ) (l : List α) : List α :=
  match l.getLast? with
  | none => []
  | some last =>
    let rest := l.dropLast
    if rest.isEmpty then [] else bubbleDown cmp (rest.set 0 last) 0

/-- `PriorityQueue.remove`: linear scan for the first match, replace it by the
last element and re-sift; `none` when no element matches. -/
def heapRemove (cmp : α → α → ℚ) (p : α → Bool) (l : List α) : Option (List α) :=
  match l.findIdx? p with
  | none => none
  | some idx =>
    match l.getLast? with
    | none => none
    | some last =>
      let rest := l.dropLast
      some (if idx < rest.length then
        bubbleDown cmp (bubbleUp cmp (rest.set idx last) idx) idx
      else rest)

/-!
### `OrderBook` from `src/src/game/order-book.ts`
-/

/-- Bid-heap comparator from the `OrderBook` constructor: max-heap on price,
FIFO on timestamp at equal prices; orders missing a price compare equal. -/
def bidCmp (a b : Order) : ℚ :=
  match a.price, b.price with
  | some pa, some pb => if pb = pa then a.timestamp - b.timestamp else pb - pa
  | _, _ => 0

/-- Ask-heap comparator from the `OrderBook` constructor: min-heap on price,
FIFO on timestamp at equal prices; orders missing a price compare equal. -/
def askCmp (a b : Order) : ℚ :=
  match a.price, b.price with
  | some pa, some pb => if pa = pb then a.timestamp - b.timestamp else pa - pb
  | _, _ => 0

/-- The `OrderBook` state: the two heap arrays, the `orderId → Order` index and
the monotonic trade-id counter. -/
structure OrderBook where
  bids : List Order
  asks : List Order
  orders : List (String × Order)
  nextTradeId : Nat
deriving DecidableEq, Repr

/-- The freshly constructed, empty book. -/
def OrderBook.empty : OrderBook := ⟨[], [], [], 0⟩

/-- `OrderBook.addOrder`: push to the side heap, record in the id index. The
source performs no validation. -/
def OrderBook.addOrder (b : OrderBook) (o : Order) : OrderBook :=
  let b₁ :=
    if o.side = OrderSide.buy then { b with bids := heapPush bidCmp b.bids o }
    else { b with asks := heapPush askCmp b.asks o }
  { b₁ with orders := mapSet o.id o b₁.orders }

/-- `OrderBook.getOrder`: id-index lookup. -/
def OrderBook.getOrder (b : OrderBook) (orderId : String) : Option Order :=
  mapLookup orderId b.orders

/-- `OrderBook.removeOrder`: heap removal by id predicate plus index erase;
`false` when the id is unknown. -/
def OrderBook.removeOrder (b : OrderBook) (orderId : String) : Bool × OrderBook :=
  match mapLookup orderId b.orders with
  | none => (false, b)
  | some o =>
    let b₁ :=
      if o.side = OrderSide.buy then
        { b with bids := (heapRemove bidCmp (fun x => x.id == orderId) b.bids).getD b.bids }
      else
        { b with asks := (heapRemove askCmp (fun x => x.id == orderId) b.asks).getD b.asks }
    (true, { b₁ with orders := mapDelete orderId b₁.orders })

/-- The `canMatch` condition of the matching loop: either side is a market
order, or both limit prices are present and cross (`bid ≥ ask`). -/
def canMatch (bestBid bestAsk : Order) : Bool :=
  bestBid.type == OrderType.market || bestAsk.type == OrderType.market ||
    (match bestBid.price, bestAsk.price with
     | some bp, some ap => decide (bp ≥ ap)
     | _, _ => false)

/-- Trade-price selection of the matching loop: market buy takes the ask price,
market sell takes the bid price, two limits take the ask price; a missing price
falls back to `0` (the `?? 0` in the source). -/
def tradePrice (bestBid bestAsk : Order) : ℚ :=
  if bestBid.type = OrderType.market then bestAsk.price.getD 0
  else if bestAsk.type = OrderType.market then bestBid.price.getD 0
  else bestAsk.price.getD 0

/-- One iteration of the `while (true)` loop of `OrderBook.matchOrders`:
`none` when either heap is empty or the pair does not cross, otherwise the
emitted trade and the updated book. The in-place mutation of the shared order
object is modelled by writing the updated order both to heap slot `0` and to
the id index. -/
def OrderBook.matchStep (b : OrderBook) (now : ℚ) : Option (Trade × OrderBook) :=
  match heapPeek b.bids, heapPeek b.asks with
  | some bestBid, some bestAsk =>
    if canMatch bestBid bestAsk then
      let tradeQuantity := min bestBid.quantity bestAsk.quantity
      let trade : Trade :=
        { id := "trade-" ++ toString b.nextTradeId
          buyOrderId := bestBid.id
          sellOrderId := bestAsk.id
          itemId := bestBid.itemId
          quantity := tradeQuantity
          price := tradePrice bestBid bestAsk
          timestamp := now }
      let b₁ :=
        if bestBid.quantity - tradeQuantity = 0 then
          { b with bids := heapPop bidCmp b.bids, orders := mapDelete bestBid.id b.orders }
        else
          let pb := { bestBid with quantity := bestBid.quantity - tradeQuantity,
                                   status := "partial" }
          { b with bids := b.bids.set 0 pb, orders := mapSet bestBid.id pb b.orders }
      let b₂ :=
        if bestAsk.quantity - tradeQuantity = 0 then
          { b₁ with asks := heapPop askCmp b₁.asks, orders := mapDelete bestAsk.id b₁.orders }
        else
          let pa := { bestAsk with quantity := bestAsk.quantity - tradeQuantity,
                                   status := "partial" }
          { b₁ with asks := b₁.asks.set 0 pa, orders := mapSet bestAsk.id pa b₁.orders }
      some (trade, { b₂ with nextTradeId := b₂.nextTradeId + 1 })
    else none
  | _, _ => none

/-- Total heap population of a book, the fuel measure for the matching loop. -/
def OrderBook.size (b : OrderBook) : Nat := b.bids.length + b.asks.length

/-- The matching loop with an explicit fuel counter; `b.size` units of fuel are
always enough because each iteration pops at least one order. -/
def OrderBook.matchOrdersGo : Nat → OrderBook → ℚ → List Trade × OrderBook
  | 0, b, _ => ([], b)
  | n + 1, b, now =>
    match b.matchStep now with
    | none => ([], b)
    | some (t, b') =>
      let r := OrderBook.matchOrdersGo n b' now
      (t :: r.1, r.2)

/-- `OrderBook.matchOrders`: run the matching loop to completion. -/
def OrderBook.matchOrders (b : OrderBook) (now : ℚ) : List Trade × OrderBook :=
  OrderBook.matchOrdersGo b.size b now

/-!
### `market-worker-thread.ts`: `SimpleOrderBook`, `SimplePlayerSession`,
`SimpleMarketEngine` and the request handlers
-/

/-- Bid comparator of `SimpleOrderBook.addOrder`:
`(b.price || 0) - (a.price || 0)`, ties broken by `a.timestamp - b.timestamp`. -/
def simpleBidCmp (a b : Order) : ℚ :=
  let priceDiff := b.price.getD 0 - a.price.getD 0
  if priceDiff ≠ 0 then priceDiff else a.timestamp - b.timestamp

/-- Ask comparator of `SimpleOrderBook.addOrder`:
`(a.price || 0) - (b.price || 0)`, ties broken by `a.timestamp - b.timestamp`. -/
def simpleAskCmp (a b : Order) : ℚ :=
  let priceDiff := a.price.getD 0 - b.price.getD 0
  if priceDiff ≠ 0 then priceDiff else a.timestamp - b.timestamp

/-- `SimpleOrderBook` state: plain sorted arrays plus the id index and the
trade counter. -/
structure SimpleOrderBook where
  bids : List Order
  asks : List Order
  orders : List (String × Order)
  nextTradeId : Nat
deriving DecidableEq, Repr

/-- The freshly constructed, empty `SimpleOrderBook`. -/
def SimpleOrderBook.empty : SimpleOrderBook := ⟨[], [], [], 0⟩

/-- `SimpleOrderBook.addOrder`: push then stable-sort the side array by its
comparator (JS `Array.prototype.sort` is stable), and record in the index. -/
def SimpleOrderBook.addOrder (bk : SimpleOrderBook) (o : Order) : SimpleOrderBook :=
  let bk₁ :=
    if o.side = OrderSide.buy then
      { bk with bids := (bk.bids ++ [o]).mergeSort (fun a b => decide (simpleBidCmp a b ≤ 0)) }
    else
      { bk with asks := (bk.asks ++ [o]).mergeSort (fun a b => decide (simpleAskCmp a b ≤ 0)) }
  { bk₁ with orders := mapSet o.id o bk₁.orders }

/-- `SimpleOrderBook.removeOrder`: filter the side array by id; `false` when
the id is unknown. -/
def SimpleOrderBook.removeOrder (bk : SimpleOrderBook) (orderId : String) :
    Bool × SimpleOrderBook :=
  match mapLookup orderId bk.orders with
  | none => (false, bk)
  | some o =>
    let bk₁ :=
      if o.side = OrderSide.buy then
        { bk with bids := bk.bids.filter (fun x => x.id != orderId) }
      else
        { bk with asks := bk.asks.filter (fun x => x.id != orderId) }
    (true, { bk₁ with orders := mapDelete orderId bk₁.orders })

/-- One iteration of the `while` loop of `SimpleOrderBook.matchOrders`. The
same crossing test, price selection and quantity rule as the heap book;
a fully filled side is `shift`ed, a remainder stays at the front (the source
mutates the shared object, so the index entry is updated too, but no `partial`
status is written in this variant). -/
def SimpleOrderBook.matchStep (bk : SimpleOrderBook) (now : ℚ) :
    Option (Trade × SimpleOrderBook) :=
  match bk.bids, bk.asks with
  | bestBid :: restBids, bestAsk :: restAsks =>
    if canMatch bestBid bestAsk then
      let tradeQuantity := min bestBid.quantity bestAsk.quantity
      let trade : Trade :=
        { id := "trade-" ++ toString bk.nextTradeId
          buyOrderId := bestBid.id
          sellOrderId := bestAsk.id
          itemId := bestBid.itemId
          quantity := tradeQuantity
          price := tradePrice bestBid bestAsk
          timestamp := now }
      let newBid : Order := { bestBid with quantity := bestBid.quantity - tradeQuantity }
      let newAsk : Order := { bestAsk with quantity := bestAsk.quantity - tradeQuantity }
      let bk₁ :=
        if newBid.quantity = 0 then
          { bk with bids := restBids, orders := mapDelete bestBid.id bk.orders }
        else
          { bk with bids := newBid :: restBids, orders := mapSet bestBid.id newBid bk.orders }
      let bk₂ :=
        if newAsk.quantity = 0 then
          { bk₁ with asks := restAsks, orders := mapDelete bestAsk.id bk₁.orders }
        else
          { bk₁ with asks := newAsk :: restAsks,
                     orders := mapSet bestAsk.id newAsk bk₁.orders }
      some (trade, { bk₂ with nextTradeId := bk₂.nextTradeId + 1 })
    else none
  | _, _ => none

/-- Fuel measure for the simple matching loop. -/
def SimpleOrderBook.size (bk : SimpleOrderBook) : Nat := bk.bids.length + bk.asks.length

/-- The simple matching loop with fuel; as for the heap book, every iteration
removes at least one order, so `bk.size` units of fuel suffice. -/
def SimpleOrderBook.matchOrdersGo : Nat → SimpleOrderBook → ℚ → List Trade × SimpleOrderBook
  | 0, bk, _ => ([], bk)
  | n + 1, bk, now =>
    match bk.matchStep now with
    | none => ([], bk)
    | some (t, bk') =>
      let r := SimpleOrderBook.matchOrdersGo n bk' now
      (t :: r.1, r.2)

/-- `SimpleOrderBook.matchOrders`: run the simple matching loop to completion. -/
def SimpleOrderBook.matchOrders (bk : SimpleOrderBook) (now : ℚ) :
    List Trade × SimpleOrderBook :=
  SimpleOrderBook.matchOrdersGo bk.size bk now

/-- `SimplePlayerSession` state from `market-worker-thread.ts`. -/
structure SimplePlayerSession where
  playerId : String
  balance : ℚ
  inventory : List (String × ℚ)
deriving DecidableEq, Repr

/-- `SimplePlayerSession` constructor (`initialBalance` defaults to 0 at the
TS call sites that omit it). -/
def SimplePlayerSession.make (playerId : String) (initialBalance : ℚ) :
    SimplePlayerSession :=
  { playerId := playerId, balance := initialBalance, inventory := [] }

/-- `SimplePlayerSession.getInventory`: `inventory.get(itemId) ?? 0`. -/
def SimplePlayerSession.getInventory (s : SimplePlayerSession) (itemId : String) : ℚ :=
  (mapLookup itemId s.inventory).getD 0

/-- `SimplePlayerSession.hasSufficientBalance`. -/
def SimplePlayerSession.hasSufficientBalance (s : SimplePlayerSession) (amount : ℚ) : Bool :=
  decide (s.balance ≥ amount)

/-- `SimplePlayerSession.hasSufficientInventory`. -/
def SimplePlayerSession.hasSufficientInventory (s : SimplePlayerSession)
    (itemId : String) (quantity : ℚ) : Bool :=
  decide (s.getInventory itemId ≥ quantity)

/-- `SimplePlayerSession.updateBalance`: throws (modelled as `Except.error`)
when the new balance would be negative, otherwise stores it. -/
def SimplePlayerSession.updateBalance (s : SimplePlayerSession) (delta : ℚ) :
    Except String SimplePlayerSession :=
  let newBalance := s.balance + delta
  if newBalance < 0 then Except.error "Insufficient balance"
  else Except.ok { s with balance := newBalance }

/-- `SimplePlayerSession.updateInventory`: throws when the new quantity would
be negative; a quantity of exactly zero deletes the item from the map. -/
def SimplePlayerSession.updateInventory (s : SimplePlayerSession)
    (itemId : String) (delta : ℚ) : Except String SimplePlayerSession :=
  let currentQuantity := (mapLookup itemId s.inventory).getD 0
  let newQuantity := currentQuantity + delta
  if newQuantity < 0 then Except.error "Insufficient inventory"
  else if newQuantity = 0 then
    Except.ok { s with inventory := mapDelete itemId s.inventory }
  else
    Except.ok { s with inventory := mapSet itemId newQuantity s.inventory }

/-- `SimpleMarketEngine` state (drift/volatility/dt are fixed constants in the
worker; the stochastic `updatePrice` is not needed by the handlers below). -/
structure SimpleMarketEngine where
  itemId : String
  currentPrice : ℚ
  drift : ℚ
  volatility : ℚ
  dt : ℚ
deriving DecidableEq, Repr

/-- `new SimpleMarketEngine(itemId, initialPrice)`. -/
def SimpleMarketEngine.make (itemId : String) (initialPrice : ℚ) : SimpleMarketEngine :=
  { itemId := itemId, currentPrice := initialPrice, drift := 8/100,
    volatility := 2/10, dt := 1/252 }

/-- The worker's module-level state: `orderBook`, `marketEngine`,
`playerSessions`. -/
structure WorkerState where
  orderBook : SimpleOrderBook
  marketEngine : SimpleMarketEngine
  playerSessions : List (String × SimplePlayerSession)
deriving DecidableEq, Repr

/-- `initialize(itemId, initialPrice)` with an empty session registry. -/
def WorkerState.init (itemId : String) (initialPrice : ℚ) : WorkerState :=
  { orderBook := SimpleOrderBook.empty
    marketEngine := SimpleMarketEngine.make itemId initialPrice
    playerSessions := [] }

/-- Write a session back into the registry (models the aliasing of the JS
session object held both by the caller and by the `playerSessions` map). -/
def WorkerState.setSession (w : WorkerState) (s : SimplePlayerSession) : WorkerState :=
  { w with playerSessions := mapSet s.playerId s w.playerSessions }

/-- `getPlayerSession(playerId)`: get-or-create with a starting balance of
1,000,000. -/
def WorkerState.getPlayerSession (w : WorkerState) (playerId : String) :
    SimplePlayerSession × WorkerState :=
  match mapLookup playerId w.playerSessions with
  | some s => (s, w)
  | none =>
    let s := SimplePlayerSession.make playerId 1000000
    (s, { w with playerSessions := mapSet playerId s w.playerSessions })

/-- `getPlayerSessionForOrder(order)`: fetch the session and, for a sell order
lacking inventory, silently grant 1000 units of the item before returning.
The `Except.error` case models the (unreachable for a non-negative inventory)
thrown exception escaping to `handleMessage`. -/
def WorkerState.getPlayerSessionForOrder (w : WorkerState) (order : Order) :
    Except String SimplePlayerSession × WorkerState :=
  let r := w.getPlayerSession order.playerId
  let session := r.1
  let w₁ := r.2
  if order.side = OrderSide.sell ∧
      ¬ session.hasSufficientInventory order.itemId order.quantity then
    match session.updateInventory order.itemId 1000 with
    | Except.error e => (Except.error e, w₁)
    | Except.ok s' => (Except.ok s', w₁.setSession s')
  else (Except.ok session, w₁)

/-- The worker's tagged responses (`WorkerResponse` in the message protocol). -/
inductive WorkerResponse where
  | orderSubmitted (orderId : String) (trades : List Trade)
  | orderCancelled (orderId : String)
  | errorResp (message : String)
deriving DecidableEq, Repr

/-- `handleSubmitOrder(order)`: reserve `(order.price || 0) * order.quantity`
from the balance for a buy, or `order.quantity` items for a sell, then add the
order to the book. Insufficient funds/inventory yield an error response and
skip the book insertion. -/
def handleSubmitOrder (w : WorkerState) (order : Order) : WorkerResponse × WorkerState :=
  match w.getPlayerSessionForOrder order with
  | (Except.error e, w₁) => (WorkerResponse.errorResp e, w₁)
  | (Except.ok session, w₁) =>
    if order.side = OrderSide.buy then
      let cost := order.price.getD 0 * order.quantity
      if ¬ session.hasSufficientBalance cost then
        (WorkerResponse.errorResp "Insufficient balance", w₁)
      else
        match session.updateBalance (-cost) with
        | Except.error e => (WorkerResponse.errorResp e, w₁)
        | Except.ok s' =>
          let w₂ := w₁.setSession s'
          (WorkerResponse.orderSubmitted order.id [],
           { w₂ with orderBook := w₂.orderBook.addOrder order })
    else
      if ¬ session.hasSufficientInventory order.itemId order.quantity then
        (WorkerResponse.errorResp "Insufficient inventory", w₁)
      else
        match session.updateInventory order.itemId (-order.quantity) with
        | Except.error e => (WorkerResponse.errorResp e, w₁)
        | Except.ok s' =>
          let w₂ := w₁.setSession s'
          (WorkerResponse.orderSubmitted order.id [],
           { w₂ with orderBook := w₂.orderBook.addOrder order })

/-- `handleCancelOrder(orderId)`: remove from the book; no refund of the
reserved balance or inventory is performed. -/
def handleCancelOrder (w : WorkerState) (orderId : String) :
    WorkerResponse × WorkerState :=
  let r := w.orderBook.removeOrder orderId
  if r.1 then
    (WorkerResponse.orderCancelled orderId, { w with orderBook := r.2 })
  else
    (WorkerResponse.errorResp "Order not found", { w with orderBook := r.2 })

/-!
### `MarketEngine.updatePrice` from `src/src/game/market-engine.ts`
-/

/-- `MarketEngineConfig` (the `timeWindow` field is not needed by
`updatePrice` itself). -/
structure MarketEngineConfig where
  drift : ℚ
  volatility : ℚ
  dt : ℚ
  baseAdjustment : ℚ
  pressureFactor : ℚ
deriving DecidableEq, Repr

/-- The hard price floor of `updatePrice` (`Math.max(adjustedPrice, 0.01)`). -/
def PRICE_FLOOR : ℚ := 1/100

/-- `calculateOrderFlowPressure`: `(buy − sell) / (buy + sell)`, `0` when the
accumulated volume is zero or no order arrival is recorded. -/
def calculateOrderFlowPressure (hasArrivals : Bool) (buyVolume sellVolume : ℚ) : ℚ :=
  if !hasArrivals then 0
  else
    let totalVolume := buyVolume + sellVolume
    if totalVolume = 0 then 0 else (buyVolume - sellVolume) / totalVolume

/-- `MarketEngine.updatePrice`, one tick. `epsilon` is the Box-Muller normal
draw, `sqrtDt` the value of `Math.sqrt(dt)` and `expF` the exponential
`Math.exp`; the last two are abstracted because they are transcendental — the
clamp holds for every value they could take. -/
def MarketEngine.updatePrice (cfg : MarketEngineConfig) (currentPrice : ℚ)
    (pressure epsilon sqrtDt : ℚ) (expF : ℚ → ℚ) : ℚ :=
  let mu := cfg.drift
  let sigma := cfg.volatility
  let driftTerm := (mu - sigma * sigma / 2) * cfg.dt
  let diffusionTerm := sigma * epsilon * sqrtDt
  let logReturn := driftTerm + diffusionTerm
  let gbmPrice := currentPrice * expF logReturn
  let priceAdjustment := cfg.baseAdjustment * cfg.pressureFactor * pressure
  let adjustedPrice := gbmPrice * (1 + priceAdjustment)
  max adjustedPrice PRICE_FLOOR

/-!
### `PlayerSession` from `src/src/game/player-session.ts`
-/

/-- `PlayerSessionState` from `player-session.ts`. -/
structure PlayerSessionState where
  balance : ℚ
  inventory : List (String × ℚ)
deriving DecidableEq, Repr

/-- The `PlayerSession` constructor: stores `initialBalance` unvalidated with
an empty inventory. -/
def PlayerSession.make (initialBalance : ℚ) : PlayerSessionState :=
  { balance := initialBalance, inventory := [] }

/-- `PlayerSession.getBalance`. -/
def PlayerSession.getBalance (st : PlayerSessionState) : ℚ := st.balance

/-- `PlayerSession.getInventory`: `inventory.get(itemId) ?? 0`. -/
def PlayerSession.getInventory (st : PlayerSessionState) (itemId : String) : ℚ :=
  (mapLookup itemId st.inventory).getD 0

/-- `PlayerSession.updateBalance`: throws when the new balance would be
negative (before any mutation), otherwise stores the new balance. -/
def PlayerSession.updateBalance (st : PlayerSessionState) (delta : ℚ) :
    Except String PlayerSessionState :=
  let newBalance := st.balance + delta
  if newBalance < 0 then Except.error "Insufficient balance"
  else Except.ok { st with balance := newBalance }

/-- `PlayerSession.updateInventory`: throws when the new quantity would be
negative (before any mutation); a new quantity of exactly zero deletes the
item, otherwise it is stored. -/
def PlayerSession.updateInventory (st : PlayerSessionState) (itemId : String)
    (delta : ℚ) : Except String PlayerSessionState :=
  let currentQuantity := (mapLookup itemId st.inventory).getD 0
  let newQuantity := currentQuantity + delta
  if newQuantity < 0 then Except.error "Insufficient inventory"
  else if newQuantity = 0 then
    Except.ok { st with inventory := mapDelete itemId st.inventory }
  else
    Except.ok { st with inventory := mapSet itemId newQuantity st.inventory }

/-!
### Concrete example data used by witnesses and counterexamples
-/

/-- A resting limit buy: price 100, quantity 5. -/
def crossBuyOrder : Order :=
  ⟨"buy-1", "alice", "itm", OrderType.limit, OrderSide.buy, 5, some 100, 0, "pending"⟩

/-- A resting limit sell: price 90, quantity 3 (crosses `crossBuyOrder`). -/
def crossSellOrder : Order :=
  ⟨"sell-1", "bob", "itm", OrderType.limit, OrderSide.sell, 3, some 90, 1, "pending"⟩

/-- A book holding the two crossing limit orders. -/
def crossBook : OrderBook :=
  (OrderBook.empty.addOrder crossBuyOrder).addOrder crossSellOrder

/-- A resting market buy (no price), quantity 1. -/
def restingMarketBuy : Order :=
  ⟨"mb-1", "p1", "itm", OrderType.market, OrderSide.buy, 1, none, 0, "pending"⟩

/-- A resting market sell (no price), quantity 1. -/
def restingMarketSell : Order :=
  ⟨"ms-1", "p2", "itm", OrderType.market, OrderSide.sell, 1, none, 1, "pending"⟩

/-- A heap book holding only the two market orders. -/
def bothMarketBook : OrderBook :=
  (OrderBook.empty.addOrder restingMarketBuy).addOrder restingMarketSell

/-- The worker-thread book holding only the two market orders. -/
def bothMarketSimpleBook : SimpleOrderBook :=
  (SimpleOrderBook.empty.addOrder restingMarketBuy).addOrder restingMarketSell

/-- A malformed order: a limit order without a price and with quantity 0. -/
def malformedOrder : Order :=
  ⟨"bad-1", "p", "itm", OrderType.limit, OrderSide.buy, 0, none, 0, "pending"⟩

/-- A sell order for 5 apples at limit price 10 from player `p1`. -/
def noStockSellOrder : Order :=
  ⟨"so-1", "p1", "apple", OrderType.limit, OrderSide.sell, 5, some 10, 0, "pending"⟩

/-- A freshly initialized worker for the `apple` market at price 100; no
player session exists yet, so `p1` holds no inventory at all. -/
def freshAppleWorker : WorkerState := WorkerState.init "apple" 100

/-- A worker whose only session is player `p1` with balance 1000 and empty
inventory, trading `itm` at engine price 100. -/
def balance1000Worker : WorkerState :=
  ⟨SimpleOrderBook.empty, SimpleMarketEngine.make "itm" 100,
   [("p1", ⟨"p1", 1000, []⟩)]⟩

/-- A limit buy: 5 units of `itm` at price 100, from `p1`. -/
def reservedBuyOrder : Order :=
  ⟨"bo-1", "p1", "itm", OrderType.limit, OrderSide.buy, 5, some 100, 0, "pending"⟩

/-- The worker state after `balance1000Worker` accepts `reservedBuyOrder`. -/
def afterSubmitState : WorkerState := (handleSubmitOrder balance1000Worker reservedBuyOrder).2

/-- The worker state after the subsequent cancellation of `bo-1`. -/
def afterCancelState : WorkerState := (handleCancelOrder afterSubmitState "bo-1").2

/-- A worker whose only session is player `p1` with balance 1000, trading
`itm` at engine price 50. -/
def price50Worker : WorkerState :=
  ⟨SimpleOrderBook.empty, SimpleMarketEngine.make "itm" 50,
   [("p1", ⟨"p1", 1000, []⟩)]⟩

/-- A market buy (no price): 5 units of `itm` from `p1`. -/
def marketBuyOrder : Order :=
  ⟨"mo-1", "p1", "itm", OrderType.market, OrderSide.buy, 5, none, 0, "pending"⟩

/-!
### Auxiliary lemmas
-/

theorem mapLookup_set_self (k : String) (v : β) (m : List (String × β)) :
    mapLookup k (mapSet k v m) = some v := by
  induction m with
  | nil => simp [mapSet, mapLookup]
  | cons e rest ih =>
    obtain ⟨k', v'⟩ := e
    by_cases h : k' = k <;> simp [mapSet, mapLookup, h, ih]

theorem mapLookup_set_ne (k k₀ : String) (v : β) (m : List (String × β)) (h : k ≠ k₀) :
    mapLookup k (mapSet k₀ v m) = mapLookup k m := by
  induction m with
  | nil => simp [mapSet, mapLookup, Ne.symm h]
  | cons e rest ih =>
    obtain ⟨k', v'⟩ := e
    by_cases hk : k' = k₀ <;> by_cases hk' : k' = k <;>
      simp_all [mapSet, mapLookup, Ne.symm h]

theorem mapLookup_delete_ne (k k₀ : String) (m : List (String × β)) (h : k ≠ k₀) :
    mapLookup k (mapDelete k₀ m) = mapLookup k m := by
  induction m with
  | nil => simp [mapDelete]
  | cons e rest ih =>
    obtain ⟨k', v'⟩ := e
    by_cases hk : k' = k₀ <;> by_cases hk' : k' = k <;>
      simp_all [mapDelete, mapLookup]

/-- Deleting a key that occurs at most once leaves no binding for it. -/
theorem mapLookup_delete_self (k : String) (m : List (String × β))
    (huniq : m.countP (fun e => e.1 == k) ≤ 1) :
    mapLookup k (mapDelete k m) = none := by
  induction m with
  | nil => simp [mapDelete, mapLookup]
  | cons e rest ih =>
    obtain ⟨k', v'⟩ := e
    by_cases hk : k' = k
    · subst hk
      simp only [List.countP_cons, beq_self_eq_true, if_pos] at huniq
      have hrest : rest.countP (fun e => e.1 == k') = 0 := by omega
      simp only [mapDelete, if_pos rfl]
      rw [List.countP_eq_zero] at hrest
      clear huniq ih
      induction rest with
      | nil => simp [mapLookup]
      | cons e₂ rest₂ ih₂ =>
        obtain ⟨k₂, v₂⟩ := e₂
        have h₂ := hrest (k₂, v₂) (by simp)
        simp only [beq_iff_eq] at h₂
        simp only [mapLookup, if_neg h₂]
        exact ih₂ fun a ha => hrest a (List.mem_cons_of_mem _ ha)
    · simp only [mapDelete, if_neg hk, mapLookup, if_neg hk]
      apply ih
      simp only [List.countP_cons] at huniq
      omega

theorem length_listSwap (l : List α) (i j : Nat) : (listSwap l i j).length = l.length := by
  unfold listSwap
  cases l[i]? <;> cases l[j]? <;> simp

theorem listSwap_nil (i j : Nat) : listSwap ([] : List α) i j = [] := by
  simp [listSwap]

theorem listSwap_cons_succ (x : α) (t : List α) (i j : Nat) :
    listSwap (x :: t) (i + 1) (j + 1) = x :: listSwap t i j := by
  unfold listSwap
  simp only [List.getElem?_cons_succ]
  cases t[i]? <;> cases t[j]? <;> simp [List.set]

theorem set_self_of_getElem? (l : List α) (i : Nat) (a : α) (h : l[i]? = some a) :
    l.set i a = l := by
  induction l generalizing i with
  | nil => simp at h
  | cons x t ih =>
    cases i with
    | zero => simp_all
    | succ n =>
      simp only [List.getElem?_cons_succ] at h
      simp [List.set, ih n h]

theorem listSwap_zero_perm (x : α) (t : List α) (j : Nat) :
    (listSwap (x :: t) 0 j).Perm (x :: t) := by
  cases j with
  | zero =>
    unfold listSwap
    simp [List.set]
  | succ k =>
    unfold listSwap
    simp only [List.getElem?_cons_zero, List.getElem?_cons_succ]
    cases hb : t[k]? with
    | none => exact List.Perm.refl _
    | some b =>
      simp only [List.set]
      have hk : k < t.length := (List.getElem?_eq_some.mp hb).1
      have hdec : t = t.take k ++ b :: t.drop (k + 1) := by
        conv_lhs => rw [← set_self_of_getElem? t k b hb]
        rw [List.set_eq_take_append_cons_drop]
        simp [hk]
      rw [List.set_eq_take_append_cons_drop]
      simp only [hk, if_pos]
      have h₁ : (b :: (t.take k ++ x :: t.drop (k + 1))).Perm
          (b :: (x :: (t.take k ++ t.drop (k + 1)))) := List.perm_middle.cons b
      have h₂ : (b :: (x :: (t.take k ++ t.drop (k + 1)))).Perm
          (x :: (b :: (t.take k ++ t.drop (k + 1)))) := List.Perm.swap x b _
      have h₃ : (x :: (b :: (t.take k ++ t.drop (k + 1)))).Perm
          (x :: (t.take k ++ b :: t.drop (k + 1))) := List.perm_middle.symm.cons x
      have h₄ := (h₁.trans h₂).trans h₃
      rw [← hdec] at h₄
      exact h₄

theorem listSwap_comm (l : List α) (i j : Nat) : listSwap l i j = listSwap l j i := by
  cases ha : l[i]? with
  | none =>
    cases hb : l[j]? with
    | none => simp [listSwap, ha, hb]
    | some b => simp [listSwap, ha, hb]
  | some a =>
    cases hb : l[j]? with
    | none => simp [listSwap, ha, hb]
    | some b =>
      by_cases h : i = j
      · subst h
        have hab : a = b := by rw [ha] at hb; exact Option.some.inj hb
        subst hab
        rfl
      · simp only [listSwap, ha, hb]
        exact List.set_comm b a l h

theorem listSwap_perm (l : List α) (i j : Nat) : (listSwap l i j).Perm l := by
  induction l generalizing i j with
  | nil => rw [listSwap_nil]
  | cons x t ih =>
    cases i with
    | zero => exact listSwap_zero_perm x t j
    | succ n =>
      cases j with
      | zero => rw [listSwap_comm]; exact listSwap_zero_perm x t (n + 1)
      | succ m => rw [listSwap_cons_succ]; exact (ih n m).cons x

theorem bubbleUpGo_perm (cmp : α → α → ℚ) (fuel : Nat) (l : List α) (i : Nat) :
    (bubbleUpGo cmp fuel l i).Perm l := by
  induction fuel generalizing l i with
  | zero => cases i <;> exact List.Perm.refl _
  | succ fuel ih =>
    cases i with
    | zero => exact List.Perm.refl _
    | succ j =>
      unfold bubbleUpGo
      split
      · split
        · exact List.Perm.refl _
        · exact (ih _ _).trans (listSwap_perm l (j + 1) ((j + 1 - 1) / 2))
      · exact List.Perm.refl _

theorem bubbleUp_perm (cmp : α → α → ℚ) (l : List α) (i : Nat) :
    (bubbleUp cmp l i).Perm l :=
  bubbleUpGo_perm cmp i l i

theorem bubbleDownGo_perm (cmp : α → α → ℚ) (fuel : Nat) (l : List α) (i : Nat) :
    (bubbleDownGo cmp fuel l i).Perm l := by
  induction fuel generalizing l i with
  | zero => exact List.Perm.refl _
  | succ fuel ih =>
    unfold bubbleDownGo
    split
    · exact List.Perm.refl _
    · exact (ih _ _).trans (listSwap_perm l i (bdSwapIndex cmp l i))

theorem bubbleDown_perm (cmp : α → α → ℚ) (l : List α) (i : Nat) :
    (bubbleDown cmp l i).Perm l :=
  bubbleDownGo_perm cmp l.length l i

theorem heapPush_perm (cmp : α → α → ℚ) (l : List α) (x : α) :
    (heapPush cmp l x).Perm (x :: l) := by
  exact (bubbleUp_perm cmp (l ++ [x]) l.length).trans (List.perm_append_singleton x l)

theorem heapPop_perm (cmp : α → α → ℚ) (l : List α) (r : α) (h : l.head? = some r) :
    (r :: heapPop cmp l).Perm l := by
  have hne : l ≠ [] := by cases l <;> simp_all
  have hlast : l.getLast? = some (l.getLast hne) := List.getLast?_eq_getLast l hne
  have hdecomp : l.dropLast ++ [l.getLast hne] = l := List.dropLast_append_getLast hne
  unfold heapPop
  rw [hlast]
  by_cases hrest : l.dropLast.isEmpty
  · have hd : l.dropLast = [] := by
      cases hh : l.dropLast <;> simp_all [List.isEmpty]
    simp only [hrest, if_pos]
    have hl : l = [l.getLast hne] := by
      conv_lhs => rw [← hdecomp]
      rw [hd]
      rfl
    have hr : r = l.getLast hne := by
      rw [hl] at h
      exact (Option.some.inj (by simpa using h)).symm
    have : ([r] : List α) = l := by rw [hr]; exact hl.symm
    exact this ▸ List.Perm.refl _
  · simp only [hrest, if_neg, Bool.false_eq_true, not_false_iff]
    obtain ⟨t, hd⟩ : ∃ t, l.dropLast = r :: t := by
      rcases l with _ | ⟨a, t'⟩
      · exact absurd rfl hne
      · have har : a = r := by simpa using h
        subst har
        rcases t' with _ | ⟨b, t''⟩
        · simp [List.isEmpty] at hrest
        · exact ⟨(b :: t'').dropLast, rfl⟩
    rw [hd]
    simp only [List.set]
    have h₁ : (r :: bubbleDown cmp (l.getLast hne :: t) 0).Perm
        (r :: (l.getLast hne :: t)) := (bubbleDown_perm cmp _ 0).cons r
    have h₂ : (r :: (l.getLast hne :: t)).Perm (r :: (t ++ [l.getLast hne])) :=
      ((List.perm_append_singleton _ t).symm).cons r
    have h₃ : (r :: t) ++ [l.getLast hne] = l := by rw [← hd]; exact hdecomp
    have h₄ := h₁.trans h₂
    rw [show r :: (t ++ [l.getLast hne]) = (r :: t) ++ [l.getLast hne] from rfl, h₃] at h₄
    exact h₄

/-- After popping a heap whose root satisfies `p` and in which at most one
element satisfies `p`, no element satisfying `p` remains. -/
theorem heapPop_countP_eliminated (cmp : α → α → ℚ) (p : α → Bool) (l : List α) (r : α)
    (h : l.head? = some r) (hr : p r = true) (huniq : l.countP p ≤ 1) :
    ∀ o ∈ heapPop cmp l, ¬ p o = true := by
  have hperm := heapPop_perm cmp l r h
  have hcount := hperm.countP_eq p
  rw [List.countP_cons, hr, if_pos rfl] at hcount
  have : (heapPop cmp l).countP p = 0 := by omega
  exact List.countP_eq_zero.mp this

theorem length_heapPop_lt (cmp : α → α → ℚ) (l : List α) (h : l ≠ []) :
    (heapPop cmp l).length < l.length := by
  have hlast : l.getLast? = some (l.getLast h) := List.getLast?_eq_getLast l h
  unfold heapPop
  rw [hlast]
  by_cases hrest : l.dropLast.isEmpty
  · simp only [hrest, if_pos, List.length_nil]
    exact List.length_pos.mpr h
  · simp only [hrest, if_neg, Bool.false_eq_true, not_false_iff]
    have h₁ : (bubbleDown cmp (l.dropLast.set 0 (l.getLast h)) 0).length =
        (l.dropLast.set 0 (l.getLast h)).length := (bubbleDown_perm cmp _ 0).length_eq
    rw [h₁, List.length_set, List.length_dropLast]
    have := List.length_pos.mpr h
    omega

/-- Every successful matching iteration pops at least one order, so the book
strictly shrinks. -/
theorem matchStep_size_lt (b : OrderBook) (now : ℚ) (t : Trade) (b' : OrderBook)
    (h : b.matchStep now = some (t, b')) : b'.size < b.size := by
  unfold OrderBook.matchStep at h
  cases hB : heapPeek b.bids with
  | none => rw [hB] at h; simp at h
  | some bestBid =>
    cases hA : heapPeek b.asks with
    | none => rw [hB, hA] at h; simp at h
    | some bestAsk =>
      rw [hB, hA] at h
      by_cases hc : canMatch bestBid bestAsk
      · simp only [hc, if_pos] at h
        have hBne : b.bids ≠ [] := by
          intro hnil; rw [hnil] at hB; simp [heapPeek] at hB
        have hAne : b.asks ≠ [] := by
          intro hnil; rw [hnil] at hA; simp [heapPeek] at hA
        have hmin : bestBid.quantity - min bestBid.quantity bestAsk.quantity = 0 ∨
            bestAsk.quantity - min bestBid.quantity bestAsk.quantity = 0 := by
          rcases min_choice bestBid.quantity bestAsk.quantity with hm | hm <;>
            [left; right] <;> rw [hm] <;> ring
        have hpb := length_heapPop_lt bidCmp b.bids hBne
        have hpa := length_heapPop_lt askCmp b.asks hAne
        split_ifs at h with h1 h2 h2 <;>
          [skip; skip; skip; exact absurd hmin (by simp [h1, h2])] <;>
          (injection Option.some.inj h with ht hb
           subst hb
           simp only [OrderBook.size, List.length_set]
           omega)
      · simp [hc] at h

theorem matchOrdersGo_congr (n m : Nat) (b : OrderBook) (now : ℚ)
    (hn : b.size ≤ n) (hm : b.size ≤ m) :
    OrderBook.matchOrdersGo n b now = OrderBook.matchOrdersGo m b now := by
  induction n using Nat.strong_induction_on generalizing m b with
  | _ n ih =>
    cases n with
    | zero =>
      cases m with
      | zero => rfl
      | succ m' =>
        have hz : b.size = 0 := Nat.le_zero.mp hn
        have hbids : b.bids = [] := by
          have := hz
          unfold OrderBook.size at this
          exact List.length_eq_zero.mp (by omega)
        simp [OrderBook.matchOrdersGo, OrderBook.matchStep, hbids, heapPeek]
    | succ n' =>
      cases m with
      | zero =>
        have hz : b.size = 0 := Nat.le_zero.mp hm
        have hbids : b.bids = [] := by
          have := hz
          unfold OrderBook.size at this
          exact List.length_eq_zero.mp (by omega)
        simp [OrderBook.matchOrdersGo, OrderBook.matchStep, hbids, heapPeek]
      | succ m' =>
        simp only [OrderBook.matchOrdersGo]
        cases hstep : b.matchStep now with
        | none => rfl
        | some tb =>
          obtain ⟨t, b'⟩ := tb
          have hsz := matchStep_size_lt b now t b' hstep
          dsimp only
          rw [ih n' (Nat.lt_succ_self n') m' b' (by omega) (by omega)]

/-- Unfolding equation for `matchOrders`: it performs one `matchStep` and
recurses on the shrunken book. -/
theorem matchOrders_unfold (b : OrderBook) (now : ℚ) :
    b.matchOrders now =
      match b.matchStep now with
      | none => ([], b)
      | some (t, b') =>
        let r := b'.matchOrders now
        (t :: r.1, r.2) := by
  unfold OrderBook.matchOrders
  cases hstep : b.matchStep now with
  | none =>
    cases hsz : b.size with
    | zero => simp [OrderBook.matchOrdersGo]
    | succ n => simp [OrderBook.matchOrdersGo, hstep]
  | some tb =>
    obtain ⟨t, b'⟩ := tb
    have hsz := matchStep_size_lt b now t b' hstep
    have hpos : 0 < b.size := by omega
    obtain ⟨n, hn⟩ : ∃ n, b.size = n + 1 := ⟨b.size - 1, by omega⟩
    rw [hn]
    simp only [OrderBook.matchOrdersGo, hstep]
    rw [matchOrdersGo_congr n b'.size b' now (by omega) (le_refl _)]

theorem head?_set_zero (l : List α) (x : α) (h : l ≠ []) : (l.set 0 x).head? = some x := by
  cases l with
  | nil => exact absurd rfl h
  | cons a t => rfl

theorem countP_mapDelete_le (k : String) (p : String × β → Bool) (m : List (String × β)) :
    (mapDelete k m).countP p ≤ m.countP p := by
  induction m with
  | nil => simp [mapDelete]
  | cons e rest ih =>
    obtain ⟨k', v'⟩ := e
    by_cases hk : k' = k
    · simp only [mapDelete, if_pos hk, List.countP_cons]
      omega
    · simp only [mapDelete, if_neg hk, List.countP_cons]
      omega

theorem countP_mapSet_ne (k k' : String) (v : β) (m : List (String × β)) (h : k ≠ k') :
    (mapSet k v m).countP (fun e => e.1 == k') = m.countP (fun e => e.1 == k') := by
  induction m with
  | nil => simp [mapSet, List.countP_cons, h]
  | cons e rest ih =>
    obtain ⟨k₀, v₀⟩ := e
    by_cases hk : k₀ = k
    · subst hk
      simp [mapSet, List.countP_cons, h]
    · simp only [mapSet, if_neg hk, List.countP_cons, ih]

/-- Claim C1: in every iteration of `OrderBook.matchOrders` on a book whose
orders all have strictly positive quantities, a crossing best pair emits a
trade of quantity `min(bid.quantity, ask.quantity)`; a side whose quantity
reaches zero is popped from its heap and erased from the id index, and a side
with remaining quantity stays at its heap root with status `"partial"`,
keeping its original id, timestamp and price (only `quantity` and `status`
change in the record update). -/
theorem matchStep_crossing_spec (b : OrderBook) (now : ℚ) (B A : Order)
    (hB : heapPeek b.bids = some B) (hA : heapPeek b.asks = some A)
    (hposB : ∀ o ∈ b.bids, 0 < o.quantity) (hposA : ∀ o ∈ b.asks, 0 < o.quantity)
    (hc : canMatch B A = true) (hid : B.id ≠ A.id)
    (hub : b.bids.countP (fun o => o.id == B.id) ≤ 1)
    (hua : b.asks.countP (fun o => o.id == A.id) ≤ 1)
    (hob : b.orders.countP (fun e => e.1 == B.id) ≤ 1)
    (hoa : b.orders.countP (fun e => e.1 == A.id) ≤ 1) :
    ∃ tr b', b.matchStep now = some (tr, b') ∧
      tr.quantity = min B.quantity A.quantity ∧ 0 < tr.quantity ∧
      (B.quantity ≤ A.quantity →
        b'.getOrder B.id = none ∧ ∀ o ∈ b'.bids, o.id ≠ B.id) ∧
      (A.quantity < B.quantity →
        heapPeek b'.bids = some
          { B with quantity := B.quantity - min B.quantity A.quantity,
                   status := "partial" } ∧
        b'.getOrder B.id = some
          { B with quantity := B.quantity - min B.quantity A.quantity,
                   status := "partial" }) ∧
      (A.quantity ≤ B.quantity →
        b'.getOrder A.id = none ∧ ∀ o ∈ b'.asks, o.id ≠ A.id) ∧
      (B.quantity < A.quantity →
        heapPeek b'.asks = some
          { A with quantity := A.quantity - min B.quantity A.quantity,
                   status := "partial" } ∧
        b'.getOrder A.id = some
          { A with quantity := A.quantity - min B.quantity A.quantity,
                   status := "partial" }) := by
  obtain ⟨tB, hbl⟩ : ∃ t, b.bids = B :: t := by
    cases hbb : b.bids with
    | nil => rw [hbb] at hB; simp [heapPeek] at hB
    | cons x t =>
      rw [hbb] at hB
      simp only [heapPeek, List.head?_cons, Option.some.injEq] at hB
      exact ⟨t, by rw [hB]⟩
  obtain ⟨tA, hal⟩ : ∃ t, b.asks = A :: t := by
    cases haa : b.asks with
    | nil => rw [haa] at hA; simp [heapPeek] at hA
    | cons x t =>
      rw [haa] at hA
      simp only [heapPeek, List.head?_cons, Option.some.injEq] at hA
      exact ⟨t, by rw [hA]⟩
  have hBq : 0 < B.quantity := hposB B (by rw [hbl]; exact List.mem_cons_self B tB)
  have hAq : 0 < A.quantity := hposA A (by rw [hal]; exact List.mem_cons_self A tA)
  have hBne : b.bids ≠ [] := by rw [hbl]; exact List.cons_ne_nil B tB
  have hAne : b.asks ≠ [] := by rw [hal]; exact List.cons_ne_nil A tA
  have hbz : (B.quantity - min B.quantity A.quantity = 0) ↔ B.quantity ≤ A.quantity := by
    rw [sub_eq_zero, eq_comm, min_eq_left_iff]
  have haz : (A.quantity - min B.quantity A.quantity = 0) ↔ A.quantity ≤ B.quantity := by
    rw [sub_eq_zero, eq_comm, min_eq_right_iff]
  have hbidsElim : ∀ o ∈ heapPop bidCmp b.bids, o.id ≠ B.id := by
    intro o ho he
    exact heapPop_countP_eliminated bidCmp (fun o => o.id == B.id) b.bids B
      (by rw [hbl]; rfl) (by simp) hub o ho (by simp [he])
  have hasksElim : ∀ o ∈ heapPop askCmp b.asks, o.id ≠ A.id := by
    intro o ho he
    exact heapPop_countP_eliminated askCmp (fun o => o.id == A.id) b.asks A
      (by rw [hal]; rfl) (by simp) hua o ho (by simp [he])
  unfold OrderBook.matchStep
  rw [hB, hA]
  dsimp only
  rw [hc, if_pos rfl]
  rcases lt_trichotomy B.quantity A.quantity with hlt | heq | hgt
  · -- bid fully filled, ask keeps a remainder
    have h1 : B.quantity - min B.quantity A.quantity = 0 := hbz.mpr (le_of_lt hlt)
    have h2 : ¬ A.quantity - min B.quantity A.quantity = 0 := by
      rw [haz]; exact not_le.mpr hlt
    rw [if_pos h1, if_neg h2]
    refine ⟨_, _, rfl, rfl, lt_min hBq hAq, ?_, ?_, ?_, ?_⟩
    · intro _
      refine ⟨?_, hbidsElim⟩
      show mapLookup B.id (mapSet A.id _ (mapDelete B.id b.orders)) = none
      rw [mapLookup_set_ne B.id A.id _ _ hid]
      exact mapLookup_delete_self B.id b.orders hob
    · intro h
      exact absurd h (not_lt.mpr (le_of_lt hlt))
    · intro h
      exact absurd h (not_le.mpr hlt)
    · intro _
      refine ⟨?_, ?_⟩
      · exact head?_set_zero b.asks _ hAne
      · show mapLookup A.id (mapSet A.id _ (mapDelete B.id b.orders)) = some _
        rw [mapLookup_set_self]
  · -- equal quantities: both sides fully filled
    have h1 : B.quantity - min B.quantity A.quantity = 0 := hbz.mpr (le_of_eq heq)
    have h2 : A.quantity - min B.quantity A.quantity = 0 := haz.mpr (le_of_eq heq.symm)
    rw [if_pos h1, if_pos h2]
    refine ⟨_, _, rfl, rfl, lt_min hBq hAq, ?_, ?_, ?_, ?_⟩
    · intro _
      refine ⟨?_, hbidsElim⟩
      show mapLookup B.id (mapDelete A.id (mapDelete B.id b.orders)) = none
      rw [mapLookup_delete_ne B.id A.id _ hid]
      exact mapLookup_delete_self B.id b.orders hob
    · intro h
      exact absurd h (not_lt.mpr (le_of_eq heq))
    · intro _
      refine ⟨?_, hasksElim⟩
      show mapLookup A.id (mapDelete A.id (mapDelete B.id b.orders)) = none
      apply mapLookup_delete_self
      calc (mapDelete B.id b.orders).countP (fun e => e.1 == A.id) ≤
          b.orders.countP (fun e => e.1 == A.id) := countP_mapDelete_le _ _ _
        _ ≤ 1 := hoa
    · intro h
      exact absurd h (not_lt.mpr (le_of_eq heq.symm))
  · -- ask fully filled, bid keeps a remainder
    have h1 : ¬ B.quantity - min B.quantity A.quantity = 0 := by
      rw [hbz]; exact not_le.mpr hgt
    have h2 : A.quantity - min B.quantity A.quantity = 0 := haz.mpr (le_of_lt hgt)
    rw [if_neg h1, if_pos h2]
    refine ⟨_, _, rfl, rfl, lt_min hBq hAq, ?_, ?_, ?_, ?_⟩
    · intro h
      exact absurd h (not_le.mpr hgt)
    · intro _
      refine ⟨?_, ?_⟩
      · exact head?_set_zero b.bids _ hBne
      · show mapLookup B.id (mapDelete A.id (mapSet B.id _ b.orders)) = some _
        rw [mapLookup_delete_ne B.id A.id _ hid, mapLookup_set_self]
    · intro _
      refine ⟨?_, hasksElim⟩
      show mapLookup A.id (mapDelete A.id (mapSet B.id _ b.orders)) = none
      apply mapLookup_delete_self
      rw [countP_mapSet_ne B.id A.id _ b.orders hid]
      exact hoa
    · intro h
      exact absurd h (not_lt.mpr (le_of_lt hgt))

/-- Witness for C1 at a concrete crossing book: a bid of 5 at 100 against an
ask of 3 at 90. -/
theorem matchStep_crossing_spec_witness :
    canMatch crossBuyOrder crossSellOrder = true ∧
    (∃ tr b', crossBook.matchStep 2 = some (tr, b') ∧
      tr.quantity = min crossBuyOrder.quantity crossSellOrder.quantity ∧ 0 < tr.quantity ∧
      (crossBuyOrder.quantity ≤ crossSellOrder.quantity →
        b'.getOrder crossBuyOrder.id = none ∧ ∀ o ∈ b'.bids, o.id ≠ crossBuyOrder.id) ∧
      (crossSellOrder.quantity < crossBuyOrder.quantity →
        heapPeek b'.bids = some
          { crossBuyOrder with
              quantity := crossBuyOrder.quantity - min crossBuyOrder.quantity crossSellOrder.quantity,
              status := "partial" } ∧
        b'.getOrder crossBuyOrder.id = some
          { crossBuyOrder with
              quantity := crossBuyOrder.quantity - min crossBuyOrder.quantity crossSellOrder.quantity,
              status := "partial" }) ∧
      (crossSellOrder.quantity ≤ crossBuyOrder.quantity →
        b'.getOrder crossSellOrder.id = none ∧ ∀ o ∈ b'.asks, o.id ≠ crossSellOrder.id) ∧
      (crossBuyOrder.quantity < crossSellOrder.quantity →
        heapPeek b'.asks = some
          { crossSellOrder with
              quantity := crossSellOrder.quantity - min crossBuyOrder.quantity crossSellOrder.quantity,
              status := "partial" } ∧
        b'.getOrder crossSellOrder.id = some
          { crossSellOrder with
              quantity := crossSellOrder.quantity - min crossBuyOrder.quantity crossSellOrder.quantity,
              status := "partial" })) :=
  ⟨rfl,
   matchStep_crossing_spec crossBook 2 crossBuyOrder crossSellOrder rfl rfl
     (by intro o ho
         rw [show crossBook.bids = [crossBuyOrder] from rfl, List.mem_singleton] at ho
         subst ho
         norm_num [crossBuyOrder])
     (by intro o ho
         rw [show crossBook.asks = [crossSellOrder] from rfl, List.mem_singleton] at ho
         subst ho
         norm_num [crossSellOrder])
     rfl (by decide) (by decide) (by decide) (by decide) (by decide)⟩

/-- Claim C2: when the best bid and best ask are both limit orders with prices
`pb` and `pa`, the matcher matches them iff `pb ≥ pa` (so a limit buy priced
exactly at the best ask crosses), and the emitted trade is priced at the ask
price `pa`. -/
theorem matchOrders_limit_cross_iff (b : OrderBook) (now : ℚ) (B A : Order) (pb pa : ℚ)
    (hB : heapPeek b.bids = some B) (hA : heapPeek b.asks = some A)
    (hBt : B.type = OrderType.limit) (hAt : A.type = OrderType.limit)
    (hpB : B.price = some pb) (hpA : A.price = some pa) :
    (canMatch B A = true ↔ pa ≤ pb) ∧
    (pa ≤ pb → ∃ tr b', b.matchStep now = some (tr, b') ∧ tr.price = pa ∧
      (b.matchOrders now).1.head? = some tr) ∧
    (pb < pa → b.matchStep now = none ∧ (b.matchOrders now).1 = []) := by
  have hcm : canMatch B A = true ↔ pa ≤ pb := by
    simp [canMatch, hBt, hAt, hpB, hpA, ge_iff_le]
  refine ⟨hcm, ?_, ?_⟩
  · intro hle
    have hc : canMatch B A = true := hcm.mpr hle
    obtain ⟨tr, b', hstep, hprice⟩ :
        ∃ tr b', b.matchStep now = some (tr, b') ∧ tr.price = pa := by
      unfold OrderBook.matchStep
      rw [hB, hA]
      dsimp only
      rw [hc, if_pos rfl]
      refine ⟨_, _, rfl, ?_⟩
      show tradePrice B A = pa
      simp [tradePrice, hBt, hAt, hpA]
    refine ⟨tr, b', hstep, hprice, ?_⟩
    rw [matchOrders_unfold, hstep]
    rfl
  · intro hgt
    have hcf : ¬ canMatch B A = true := by rw [hcm]; exact not_le.mpr hgt
    rw [Bool.not_eq_true] at hcf
    have hstep : b.matchStep now = none := by
      unfold OrderBook.matchStep
      rw [hB, hA]
      dsimp only
      rw [hcf]
      simp
    refine ⟨hstep, ?_⟩
    rw [matchOrders_unfold, hstep]

/-- Witness for C2 at the concrete crossing book (bid 100 against ask 90). -/
theorem matchOrders_limit_cross_iff_witness :
    (canMatch crossBuyOrder crossSellOrder = true ↔ (90 : ℚ) ≤ 100) ∧
    ((90 : ℚ) ≤ 100 → ∃ tr b', crossBook.matchStep 7 = some (tr, b') ∧ tr.price = 90 ∧
      (crossBook.matchOrders 7).1.head? = some tr) ∧
    ((100 : ℚ) < 90 → crossBook.matchStep 7 = none ∧ (crossBook.matchOrders 7).1 = []) :=
  matchOrders_limit_cross_iff crossBook 7 crossBuyOrder crossSellOrder 100 90 (by decide)
    (by decide) (by decide) (by decide) (by decide) (by decide)

/-- Claim C3 is violated by the code (`code_bug` evidence): on a book whose
best bid and best ask are both market orders, `matchOrders` does not stop — it
matches the pair and emits a trade priced `0` (the `askPrice ?? 0` fallback),
removing both orders from the book. The same happens in the worker-thread
`SimpleOrderBook`. The spec (and the `Trade.price > 0` data-model invariant)
requires this combination to be treated as a stop with both orders left
resting. -/
theorem bothMarketOrders_match_at_price_zero :
    bothMarketBook.getOrder "mb-1" = some restingMarketBuy ∧
    bothMarketBook.getOrder "ms-1" = some restingMarketSell ∧
    (bothMarketBook.matchOrders 2).1 =
      [⟨"trade-0", "mb-1", "ms-1", "itm", 1, 0, 2⟩] ∧
    (bothMarketBook.matchOrders 2).2.bids = [] ∧
    (bothMarketBook.matchOrders 2).2.asks = [] ∧
    (bothMarketBook.matchOrders 2).2.getOrder "mb-1" = none ∧
    (bothMarketBook.matchOrders 2).2.getOrder "ms-1" = none ∧
    (bothMarketSimpleBook.matchOrders 2).1 =
      [⟨"trade-0", "mb-1", "ms-1", "itm", 1, 0, 2⟩] ∧
    (bothMarketSimpleBook.matchOrders 2).2.bids = [] ∧
    (bothMarketSimpleBook.matchOrders 2).2.asks = [] := by
  refine ⟨rfl, rfl, ?_⟩
  simp [bothMarketBook, bothMarketSimpleBook, OrderBook.matchOrders,
    OrderBook.matchOrdersGo, OrderBook.matchStep, OrderBook.size, OrderBook.addOrder,
    OrderBook.empty, OrderBook.getOrder, SimpleOrderBook.matchOrders,
    SimpleOrderBook.matchOrdersGo, SimpleOrderBook.matchStep, SimpleOrderBook.size,
    SimpleOrderBook.addOrder, SimpleOrderBook.empty, heapPush, heapPeek, heapPop,
    bubbleUp, bubbleUpGo, bubbleDown, bubbleDownGo, bidCmp, askCmp,
    canMatch, tradePrice, restingMarketBuy, restingMarketSell,
    mapSet, mapDelete, mapLookup, min_self, sub_self,
    show "trade-" ++ toString (0 : Nat) = "trade-0" from rfl]

/-- Claim C9 is refuted (counterexample): `addOrder` performs no validation.
A limit order with no price and quantity 0 is inserted anyway, and submitting
the same id twice leaves two heap entries. -/
theorem addOrder_no_validation_counterexample :
    (OrderBook.empty.addOrder malformedOrder).getOrder "bad-1" = some malformedOrder ∧
    (OrderBook.empty.addOrder malformedOrder).bids = [malformedOrder] ∧
    ((OrderBook.empty.addOrder malformedOrder).addOrder malformedOrder).bids =
      [malformedOrder, malformedOrder] := by
  refine ⟨rfl, rfl, ?_⟩
  show heapPush bidCmp [malformedOrder] malformedOrder = [malformedOrder, malformedOrder]
  simp [heapPush, bubbleUp, bubbleUpGo, bidCmp, malformedOrder]

/-- Claim C9 (amended): `addOrder` refuses nothing — every order, malformed or
not, is pushed onto its side heap (a permutation-preserving insertion) and
recorded in the id index, a duplicate id overwriting the index entry. -/
theorem addOrder_places_every_order (b : OrderBook) (o : Order) :
    (b.addOrder o).getOrder o.id = some o ∧
    ((b.addOrder o).bids).Perm (if o.side = OrderSide.buy then o :: b.bids else b.bids) ∧
    ((b.addOrder o).asks).Perm (if o.side = OrderSide.buy then b.asks else o :: b.asks) := by
  by_cases h : o.side = OrderSide.buy
  · refine ⟨?_, ?_, ?_⟩
    · show mapLookup o.id (mapSet o.id o _) = some o
      rw [mapLookup_set_self]
    · simp only [OrderBook.addOrder, h, if_pos]
      exact heapPush_perm bidCmp b.bids o
    · simp only [OrderBook.addOrder, h, if_pos]
      exact List.Perm.refl _
  · refine ⟨?_, ?_, ?_⟩
    · show mapLookup o.id (mapSet o.id o _) = some o
      rw [mapLookup_set_self]
    · simp only [OrderBook.addOrder, h, if_neg, if_false]
      exact List.Perm.refl _
    · simp only [OrderBook.addOrder, h, if_neg, if_false]
      exact heapPush_perm askCmp b.asks o

/-- Claim C4 is violated by the code (`code_bug` evidence): a sell of 5 apples
by a player with no inventory is not rejected with INSUFFICIENT_INVENTORY and
unchanged state — `getPlayerSessionForOrder` silently grants 1000 apples, the
handler then reserves 5 of them and accepts the order, leaving inventory 995
and the order resting in the book. -/
theorem sellWithoutInventory_granted_not_rejected :
    (handleSubmitOrder freshAppleWorker noStockSellOrder).1 =
      WorkerResponse.orderSubmitted "so-1" [] ∧
    mapLookup "p1" (handleSubmitOrder freshAppleWorker noStockSellOrder).2.playerSessions =
      some ⟨"p1", 1000000, [("apple", 995)]⟩ ∧
    (handleSubmitOrder freshAppleWorker noStockSellOrder).2.orderBook.asks =
      [noStockSellOrder] ∧
    (handleSubmitOrder freshAppleWorker noStockSellOrder).2.orderBook.orders =
      [("so-1", noStockSellOrder)] := by
  simp [handleSubmitOrder, WorkerState.getPlayerSessionForOrder,
    WorkerState.getPlayerSession, freshAppleWorker, WorkerState.init, noStockSellOrder,
    SimplePlayerSession.make, SimplePlayerSession.hasSufficientInventory,
    SimplePlayerSession.getInventory, SimplePlayerSession.updateInventory,
    WorkerState.setSession, mapLookup, mapSet, SimpleOrderBook.addOrder,
    SimpleOrderBook.empty, SimpleMarketEngine.make,
    show (1000 : ℚ) + -5 = 995 from by norm_num,
    show ¬((1000 : ℚ) < 0) from by norm_num,
    show ¬((1000 : ℚ) = 0) from by norm_num,
    show ¬((1000 : ℚ) < 5) from by norm_num,
    show ¬((995 : ℚ) < 0) from by norm_num,
    show ¬((995 : ℚ) = 0) from by norm_num]

/-- Claim C5 is violated by the code (`code_bug` evidence): the player with
balance 1000 reserves 500 on submitting a limit buy of 5 at price 100, but
`handleCancelOrder` only removes the order from the book — no refund happens,
so the balance stays 500 instead of being restored to 1000 (the book does end
up empty). -/
theorem cancel_does_not_refund_reservation :
    (handleSubmitOrder balance1000Worker reservedBuyOrder).1 =
      WorkerResponse.orderSubmitted "bo-1" [] ∧
    mapLookup "p1" afterSubmitState.playerSessions = some ⟨"p1", 500, []⟩ ∧
    (handleCancelOrder afterSubmitState "bo-1").1 =
      WorkerResponse.orderCancelled "bo-1" ∧
    afterCancelState.orderBook.bids = [] ∧
    afterCancelState.orderBook.orders = [] ∧
    mapLookup "p1" afterCancelState.playerSessions = some ⟨"p1", 500, []⟩ := by
  have hsubmit : handleSubmitOrder balance1000Worker reservedBuyOrder =
      (WorkerResponse.orderSubmitted "bo-1" [],
       ⟨⟨[reservedBuyOrder], [], [("bo-1", reservedBuyOrder)], 0⟩,
        SimpleMarketEngine.make "itm" 100, [("p1", ⟨"p1", 500, []⟩)]⟩) := by
    simp [handleSubmitOrder, WorkerState.getPlayerSessionForOrder,
      WorkerState.getPlayerSession, balance1000Worker, reservedBuyOrder,
      SimplePlayerSession.hasSufficientBalance, SimplePlayerSession.updateBalance,
      WorkerState.setSession, mapLookup, mapSet, SimpleOrderBook.addOrder,
      SimpleOrderBook.empty, SimpleMarketEngine.make,
      show ((100 : ℚ) * 5 ≤ 1000) from by norm_num,
      show (1000 : ℚ) + -(100 * 5) = 500 from by norm_num,
      show ¬((500 : ℚ) < 0) from by norm_num]
  have hafter : afterSubmitState =
      ⟨⟨[reservedBuyOrder], [], [("bo-1", reservedBuyOrder)], 0⟩,
       SimpleMarketEngine.make "itm" 100, [("p1", ⟨"p1", 500, []⟩)]⟩ := by
    rw [afterSubmitState, hsubmit]
  refine ⟨by rw [hsubmit], by rw [hafter]; rfl, ?_, ?_, ?_, ?_⟩ <;>
    simp [afterCancelState, hafter, handleCancelOrder, SimpleOrderBook.removeOrder,
      mapLookup, mapDelete, reservedBuyOrder]

/-- Counterexample to claim C6: for a market buy (no price on the order) the
debit is `(order.price || 0) * quantity = 0`, not the engine's current price
times quantity. With engine price 50 and quantity 5 the claim predicts a debit
of 250, yet the player's balance stays 1000. -/
theorem marketBuy_debits_zero_not_engine_price :
    price50Worker.marketEngine.currentPrice = 50 ∧
    (handleSubmitOrder price50Worker marketBuyOrder).1 =
      WorkerResponse.orderSubmitted "mo-1" [] ∧
    mapLookup "p1" (handleSubmitOrder price50Worker marketBuyOrder).2.playerSessions =
      some ⟨"p1", 1000, []⟩ ∧
    (1000 : ℚ) -
        price50Worker.marketEngine.currentPrice * marketBuyOrder.quantity = 750 ∧
    (1000 : ℚ) ≠ 750 := by
  refine ⟨rfl, ?_, ?_, by norm_num [price50Worker, marketBuyOrder, SimpleMarketEngine.make],
      by norm_num⟩ <;>
    simp [handleSubmitOrder, WorkerState.getPlayerSessionForOrder,
      WorkerState.getPlayerSession, price50Worker, marketBuyOrder,
      SimplePlayerSession.hasSufficientBalance, SimplePlayerSession.updateBalance,
      WorkerState.setSession, mapLookup, mapSet, SimpleOrderBook.addOrder,
      SimpleOrderBook.empty, SimpleMarketEngine.make,
      show (0 : ℚ) ≤ 1000 from by norm_num,
      show ¬((1000 : ℚ) < 0) from by norm_num]

/-- Claim C6 (amended): the amount debited for an accepted buy order is
`(order.price ?? 0) × quantity`; in particular a market buy with no price
debits 0 — the engine's current price is never consulted. -/
theorem handleSubmitOrder_buy_debit (w : WorkerState) (order : Order)
    (s : SimplePlayerSession)
    (hside : order.side = OrderSide.buy)
    (hs : mapLookup order.playerId w.playerSessions = some s)
    (hpid : s.playerId = order.playerId)
    (hbal : order.price.getD 0 * order.quantity ≤ s.balance) :
    ∃ s', (handleSubmitOrder w order).1 =
        WorkerResponse.orderSubmitted order.id [] ∧
      mapLookup order.playerId (handleSubmitOrder w order).2.playerSessions = some s' ∧
      s'.balance = s.balance - order.price.getD 0 * order.quantity ∧
      (order.price = none → s'.balance = s.balance) := by
  have hnotsell : ¬(order.side = OrderSide.sell ∧
      ¬ s.hasSufficientInventory order.itemId order.quantity = true) := by
    rintro ⟨h1, -⟩
    rw [hside] at h1
    exact absurd h1 (by decide)
  have hsuff : s.hasSufficientBalance (order.price.getD 0 * order.quantity) = true := by
    simp [SimplePlayerSession.hasSufficientBalance, ge_iff_le, hbal]
  have hnoneg : ¬ (s.balance + -(order.price.getD 0 * order.quantity) < 0) := by
    rw [not_lt, ← sub_eq_add_neg]
    exact sub_nonneg.mpr hbal
  refine ⟨{ s with balance := s.balance + -(order.price.getD 0 * order.quantity) },
    ?_, ?_, ?_, ?_⟩
  · simp [handleSubmitOrder, WorkerState.getPlayerSessionForOrder,
      WorkerState.getPlayerSession, hs, hnotsell, hside, hsuff,
      SimplePlayerSession.updateBalance, hnoneg]
  · simp [handleSubmitOrder, WorkerState.getPlayerSessionForOrder,
      WorkerState.getPlayerSession, hs, hside, hsuff, hnoneg,
      SimplePlayerSession.updateBalance, WorkerState.setSession, hpid,
      mapLookup_set_self]
  · rw [sub_eq_add_neg]
  · intro hnone
    simp [hnone]

/-- Witness for the amended C6 at a concrete state: player `p1` with balance
1000 submits a limit buy of 5 at price 100 and is debited exactly 500. -/
theorem handleSubmitOrder_buy_debit_witness :
    ∃ s', (handleSubmitOrder balance1000Worker reservedBuyOrder).1 =
        WorkerResponse.orderSubmitted reservedBuyOrder.id [] ∧
      mapLookup reservedBuyOrder.playerId
        (handleSubmitOrder balance1000Worker reservedBuyOrder).2.playerSessions = some s' ∧
      s'.balance = (1000 : ℚ) - reservedBuyOrder.price.getD 0 * reservedBuyOrder.quantity ∧
      (reservedBuyOrder.price = none → s'.balance = 1000) :=
  handleSubmitOrder_buy_debit balance1000Worker reservedBuyOrder ⟨"p1", 1000, []⟩ rfl rfl rfl
    (by norm_num [reservedBuyOrder])

/-- Claim C7: `updateBalance`/`updateInventory` reject (by throwing, modelled
as `Except.error`) any delta that would drive the value negative — the error
is raised before any mutation, so the session state is unchanged — and an
inventory update landing exactly on zero removes the item from the map. -/
theorem playerSession_update_guards (st : PlayerSessionState) (itemId : String) (delta : ℚ)
    (huniq : st.inventory.countP (fun e => e.1 == itemId) ≤ 1) :
    (st.balance + delta < 0 →
      PlayerSession.updateBalance st delta = Except.error "Insufficient balance") ∧
    (0 ≤ st.balance + delta →
      PlayerSession.updateBalance st delta =
        Except.ok { st with balance := st.balance + delta }) ∧
    (PlayerSession.getInventory st itemId + delta < 0 →
      PlayerSession.updateInventory st itemId delta =
        Except.error "Insufficient inventory") ∧
    (PlayerSession.getInventory st itemId + delta = 0 →
      ∃ st', PlayerSession.updateInventory st itemId delta = Except.ok st' ∧
        st'.balance = st.balance ∧ mapLookup itemId st'.inventory = none) := by
  refine ⟨?_, ?_, ?_, ?_⟩
  · intro h
    simp [PlayerSession.updateBalance, h]
  · intro h
    simp [PlayerSession.updateBalance, not_lt.mpr h]
  · intro h
    simp [PlayerSession.updateInventory, PlayerSession.getInventory] at h ⊢
    simp [h]
  · intro h
    simp only [PlayerSession.getInventory] at h
    refine ⟨{ st with inventory := mapDelete itemId st.inventory }, ?_, rfl, ?_⟩
    · simp [PlayerSession.updateInventory, h, not_lt.mpr (le_of_eq h.symm)]
    · exact mapLookup_delete_self itemId st.inventory huniq

/-- Witness for C7: balance 1, inventory `{apple ↦ 2}`, delta −2: the balance
update would land at −1 and errors; the inventory update lands exactly at 0
and deletes the item. -/
theorem playerSession_update_guards_witness :
    ((1 : ℚ) + -2 < 0 →
      PlayerSession.updateBalance ⟨1, [("apple", 2)]⟩ (-2) =
        Except.error "Insufficient balance") ∧
    (0 ≤ (1 : ℚ) + -2 →
      PlayerSession.updateBalance ⟨1, [("apple", 2)]⟩ (-2) =
        Except.ok ⟨1 + -2, [("apple", 2)]⟩) ∧
    (PlayerSession.getInventory ⟨1, [("apple", 2)]⟩ "apple" + -2 < 0 →
      PlayerSession.updateInventory ⟨1, [("apple", 2)]⟩ "apple" (-2) =
        Except.error "Insufficient inventory") ∧
    (PlayerSession.getInventory ⟨1, [("apple", 2)]⟩ "apple" + -2 = 0 →
      ∃ st', PlayerSession.updateInventory ⟨1, [("apple", 2)]⟩ "apple" (-2) =
          Except.ok st' ∧
        st'.balance = (1 : ℚ) ∧ mapLookup "apple" st'.inventory = none) :=
  playerSession_update_guards ⟨1, [("apple", 2)]⟩ "apple" (-2) (by decide)

/-- Claim C8: one tick of `MarketEngine.updatePrice` always produces a price
of at least `PRICE_FLOOR = 0.01`, for every configuration (drift, volatility,
dt, pressure inputs) and every value of the abstracted transcendental terms —
the floor is a hard `max` clamp. -/
theorem updatePrice_at_least_floor (cfg : MarketEngineConfig)
    (currentPrice pressure epsilon sqrtDt : ℚ) (expF : ℚ → ℚ) :
    PRICE_FLOOR ≤ MarketEngine.updatePrice cfg currentPrice pressure epsilon sqrtDt expF :=
  le_max_right _ _

/-- Claim C10: the `PlayerSession` constructor stores `initialBalance` without
validation, so a negative initial balance is reported back verbatim by
`getBalance`, violating the non-negativity invariant that `updateBalance`
enforces. -/
theorem playerSession_constructor_accepts_negative (initialBalance : ℚ)
    (h : initialBalance < 0) :
    PlayerSession.getBalance (PlayerSession.make initialBalance) = initialBalance ∧
    PlayerSession.getBalance (PlayerSession.make initialBalance) < 0 :=
  ⟨rfl, h⟩

/-- Witness for C10 at `initialBalance = −5`. -/
theorem playerSession_constructor_accepts_negative_witness :
    (-5 : ℚ) < 0 ∧
    (PlayerSession.getBalance (PlayerSession.make (-5)) = (-5 : ℚ) ∧
      PlayerSession.getBalance (PlayerSession.make (-5)) < 0) :=
  ⟨by norm_num, playerSession_constructor_accepts_negative (-5) (by norm_num)⟩

end StockGame
